import Mathlib

/-!
Verification of the structure-report generator `src/project-structure.js`.

The program is shallowly embedded: the filesystem is a tree of named nodes
(`FSNode`), every synchronous filesystem call of the source is modelled as a
total Lean function over that tree, and fallible operations return
`Except String` (the `String` is the thrown message).  `readdirSync` of a
directory may fail, which is modelled by an optional listing error stored in
the directory node; reading a file may fail, which is modelled by the file
node carrying an `Except String String` read result.  Entry names produced by
`readdirSync` on a real filesystem are plain names (never empty, never ".",
never "..", never containing a slash), which justifies the plain-concatenation
model of `path.join` below.
-/

namespace ProjectStructure

/-- Filesystem model. A file carries the result `fs.readFileSync` would give
(`.ok content` or `.error message`); a directory carries an optional listing
error (`some e` when `fs.readdirSync` would throw `e`) and its entries in
enumeration order. -/
inductive FSNode where
  | file (readResult : Except String String)
  | dir (listErr : Option String) (entries : List (String × FSNode))

/-- Counterpart of `stat.isDirectory()`. -/
def FSNode.isDirB : FSNode → Bool
  | .dir _ _ => true
  | .file _ => false

/-- Counterpart of `stat.isFile()`. -/
def FSNode.isFileB : FSNode → Bool
  | .file _ => true
  | .dir _ _ => false

mutual
/-- Executable size measure of a filesystem tree, used as a recursion-depth
fuel bound for the tree renderer. -/
def nodeSize : FSNode → Nat
  | .file _ => 1
  | .dir _ entries => 1 + entriesSize entries

/-- Size of an entry list (see `nodeSize`). -/
def entriesSize : List (String × FSNode) → Nat
  | [] => 0
  | (_, c) :: rest => 1 + nodeSize c + entriesSize rest
end

/-- Configuration record of the tool (`DEFAULT_CONFIG` shape). -/
structure Config where
  excludeDirs : List String
  excludeFiles : List String
  textExtensions : List String
  outputFile : String

/-- The `DEFAULT_CONFIG` object of the source. -/
def DEFAULT_CONFIG : Config :=
  { excludeDirs := ["node_modules", ".git", ".vscode", ".idea", ".venv", "__pycache__"]
    excludeFiles := ["package-lock.json", "yarn.lock", ".env"]
    textExtensions := [".js", ".html", ".css", ".json", ".md", ".txt", ".sql", ".ts", ".jsx",
      ".tsx", ".yaml", ".yml", ".py", ".env", ".gitignore", ".toml"]
    outputFile := "project-structure.txt" }

/-- Partial options object passed to `generateStructure` / `executeGenerator`;
absent fields fall back to the defaults by shallow merge. -/
structure Options where
  excludeDirs : Option (List String) := none
  excludeFiles : Option (List String) := none
  textExtensions : Option (List String) := none
  outputFile : Option String := none

/-- Shallow merge `{ ...DEFAULT_CONFIG, ...options }`. -/
def mergeConfig (o : Options) : Config :=
  { excludeDirs := o.excludeDirs.getD DEFAULT_CONFIG.excludeDirs
    excludeFiles := o.excludeFiles.getD DEFAULT_CONFIG.excludeFiles
    textExtensions := o.textExtensions.getD DEFAULT_CONFIG.textExtensions
    outputFile := o.outputFile.getD DEFAULT_CONFIG.outputFile }

/-- View a full configuration as an options object that overrides every field
(used by `executeGenerator`, which hands the merged config to
`generateStructure` as its options argument). -/
def configToOptions (c : Config) : Options :=
  { excludeDirs := some c.excludeDirs
    excludeFiles := some c.excludeFiles
    textExtensions := some c.textExtensions
    outputFile := some c.outputFile }

/-- Value of `path.basename(__filename)`: the base name of the tool source
file itself. -/
def selfName : String := "project-structure.js"

/-- Model of `path.join(dir, name)` for the joins performed by the program:
the directory is either the scan root "." or a previously joined path, and
`name` is a plain entry name, so Node's normalisation reduces to
concatenation with a slash (and `path.join(".", name) = name`). -/
def pathJoin (d f : String) : String := if d = "." then f else d ++ "/" ++ f

/-- Lexicographic code-point comparison of character lists; agrees with the
default JavaScript `Array.prototype.sort()` string comparison (UTF-16 code
unit order) on the names that occur here. -/
def charListLe : List Char → List Char → Bool
  | [], _ => true
  | _ :: _, [] => false
  | a :: as, b :: bs =>
    if a.toNat < b.toNat then true
    else if b.toNat < a.toNat then false
    else charListLe as bs

/-- Insert a string into an alphabetically sorted list (model of `.sort()`
on a list of names). -/
def insertName (x : String) : List String → List String
  | [] => [x]
  | y :: ys => if charListLe x.data y.data then x :: y :: ys else y :: insertName x ys

/-- Alphabetical sort of names, as produced by `.sort()`. -/
def sortNames (l : List String) : List String := l.foldr insertName []

/-- Insert an entry into a list of entries sorted alphabetically by name.
Directory entries are sorted together with their subtree nodes; since
`readdirSync` never lists the same name twice, carrying the node along is
equivalent to the source re-resolving the name with `path.join`. -/
def insertPair (x : String × FSNode) :
    List (String × FSNode) → List (String × FSNode)
  | [] => [x]
  | y :: ys => if charListLe x.1.data y.1.data then x :: y :: ys else y :: insertPair x ys

/-- Alphabetical sort of directory entries by name (model of `.sort()` on the
filtered directory names). -/
def sortPairs (l : List (String × FSNode)) : List (String × FSNode) := l.foldr insertPair []

/-- Model of `String.prototype.includes`: substring containment. -/
def strIncludes (s sub : String) : Bool := decide (sub.data <:+: s.data)

/-- Split a character list at a separator character (every separator starts a
new piece; used to model path-segment decomposition). -/
def splitOnChar (c : Char) : List Char → List (List Char)
  | [] => [[]]
  | x :: xs =>
    let r := splitOnChar c xs
    if x = c then [] :: r
    else
      match r with
      | [] => [[x]]
      | h :: t => (x :: h) :: t

/-- Path segments of a relative path (split at slashes). -/
def splitPath (p : String) : List String := (splitOnChar '/' p.data).map String.mk

/-- Model of `path.extname`: from the base name (the part after the last
slash, trailing slashes trimmed), the extension runs from the last dot to the
end, except that a base name without a dot, a base name whose only dots lead
it as first character, and the special name ".." have no extension. -/
def extname (p : String) : String :=
  let trimmed := (p.data.reverse.dropWhile (fun c => c = '/')).reverse
  let b := (splitOnChar '/' trimmed).getLastD []
  if b = ['.', '.'] then ""
  else
    let after := b.reverse.takeWhile (fun c => c ≠ '.')
    if after.length = b.length then ""
    else if after.length = b.length - 1 then ""
    else String.mk (b.drop (b.length - after.length - 1))

/-- ASCII lowercasing, the behaviour of `toLowerCase()` on the ASCII
extension strings compared here. -/
def toLowerAscii (s : String) : String := String.mk (s.data.map Char.toLower)

/-- Transcription of `getFileType`: classify by lowercased extension against
the configured `textExtensions`. -/
def getFileType (filePath : String) (config : Config) : String :=
  if config.textExtensions.contains (toLowerAscii (extname filePath)) then "text"
  else "binary"

mutual
/-- Transcription of `getAllFiles` without its accumulator argument: list the
directory, recurse into subdirectories whose name is not in `excludeDirs`,
and record every file path `path.join(dir, name)`; a listing failure
propagates as the thrown error. -/
def collectFiles (node : FSNode) (dirPath : String) (config : Config) :
    Except String (List String) :=
  match node with
  | .file _ => .error "ENOTDIR: not a directory"
  | .dir (some e) _ => .error e
  | .dir none entries => collectEntries entries dirPath config

/-- Per-entry loop of `getAllFiles` (the `files.forEach` body), in enumeration
order. -/
def collectEntries (entries : List (String × FSNode)) (dirPath : String) (config : Config) :
    Except String (List String) :=
  match entries with
  | [] => .ok []
  | (name, child) :: rest =>
    match (match child with
           | .file _ => Except.ok [pathJoin dirPath name]
           | .dir le es =>
             if config.excludeDirs.contains name then Except.ok []
             else collectFiles (.dir le es) (pathJoin dirPath name) config) with
    | .error e => .error e
    | .ok here =>
      match collectEntries rest dirPath config with
      | .error e => .error e
      | .ok more => .ok (here ++ more)
end

/-- Transcription of `getAllFiles` with its `fileList` accumulator: the
collected paths are appended after the accumulator contents. -/
def getAllFiles (node : FSNode) (dirPath : String) (fileList : List String) (config : Config) :
    Except String (List String) :=
  match collectFiles node dirPath config with
  | .error e => .error e
  | .ok l => .ok (fileList ++ l)

/-- Branch glyph of a non-final tree line. -/
def midGlyph : String := "├── "

/-- Branch glyph of the final tree line of a directory. -/
def lastGlyph : String := "└── "

/-- The sorted eligible subdirectories of a directory listing, as computed by
`generateTree`: directory entries whose name is not in `excludeDirs`, sorted
alphabetically. -/
def treeDirPairs (config : Config) (entries : List (String × FSNode)) :
    List (String × FSNode) :=
  sortPairs (entries.filter (fun p => p.2.isDirB && !(config.excludeDirs.contains p.1)))

/-- The sorted eligible file names of a directory listing, as computed by
`generateTree`: file entries whose name is not in `excludeFiles` and differs
from the tool source file name, sorted alphabetically. -/
def treeFileNames (config : Config) (entries : List (String × FSNode)) : List String :=
  sortNames ((entries.filter
    (fun p => p.2.isFileB && !(config.excludeFiles.contains p.1) && p.1 != selfName)).map
      Prod.fst)

/-- The file lines of one directory (the `fileNames.forEach` loop): a file is
rendered with `lastGlyph` exactly when it is the last file and there are no
subdirectories. -/
def treeFileLines (pfx : String) (dirsEmpty : Bool) : List String → List String
  | [] => []
  | n :: rest =>
    (pfx ++ (if rest.isEmpty && dirsEmpty then lastGlyph else midGlyph) ++ n) ::
      treeFileLines pfx dirsEmpty rest

/-- The directory lines of one directory (the `dirs.forEach` loop), given the
renderer `rend` for subtrees: a directory is last exactly when no directory
follows; its line gets `lastGlyph` then, and the recursion prefix is extended
by four spaces for the last directory and by a bar plus three spaces
otherwise. A thrown error propagates and discards the accumulated lines. -/
def genDirsWith (rend : FSNode → String → Except String (List String)) (pfx : String) :
    List (String × FSNode) → Except String (List String)
  | [] => .ok []
  | (name, child) :: rest =>
    match rend child (pfx ++ (if rest.isEmpty then "    " else "│   ")) with
    | .error e => .error e
    | .ok sub =>
      match genDirsWith rend pfx rest with
      | .error e => .error e
      | .ok more =>
        .ok (((pfx ++ (if rest.isEmpty then lastGlyph else midGlyph) ++ name ++ "/") :: sub) ++ more)

/-- Transcription of `generateTree`, with an explicit recursion-depth fuel.
The fuel only mirrors the call depth: `generateTreeFuel_congr` below shows
any fuel of at least `nodeSize node` gives the same result, so the fuel
chosen in `generateTree` is never exhausted. -/
def generateTreeFuel : Nat → FSNode → String → Config → Except String (List String)
  | 0, _, _, _ => .error "MAXDEPTH: tree recursion fuel exhausted"
  | _ + 1, .file _, _, _ => .error "ENOTDIR: not a directory"
  | _ + 1, .dir (some e) _, _, _ => .error e
  | fuel + 1, .dir none entries, pfx, config =>
    match genDirsWith (fun c q => generateTreeFuel fuel c q config) pfx
        (treeDirPairs config entries) with
    | .error e => .error e
    | .ok dl =>
      .ok (treeFileLines pfx (treeDirPairs config entries).isEmpty
        (treeFileNames config entries) ++ dl)

/-- Transcription of `generateTree` (see `generateTreeFuel`). -/
def generateTree (node : FSNode) (pfx : String) (config : Config) :
    Except String (List String) :=
  generateTreeFuel (nodeSize node) node pfx config

/-- Rendering of the file lines of one directory as worded by the
specification: a child line occupying combined position `k` out of `total`
children gets `lastGlyph` exactly when it is the last emitted line among the
combined children, that is when `k = total - 1`. -/
def specFileLines (pfx : String) (k total : Nat) : List String → List String
  | [] => []
  | n :: rest =>
    (pfx ++ (if k == total - 1 then lastGlyph else midGlyph) ++ n) ::
      specFileLines pfx (k + 1) total rest

/-- Rendering of the directory lines of one directory as worded by the
specification: a directory child at combined position `k` of `total` gets
`lastGlyph` exactly when `k = total - 1`, and its subtree is rendered with
the prefix extended by four spaces when it is the last directory and by a bar
plus three spaces otherwise, spliced right after its own line. -/
def genDirsSpecWith (rend : FSNode → String → Except String (List String)) (pfx : String)
    (k total : Nat) : List (String × FSNode) → Except String (List String)
  | [] => .ok []
  | (name, child) :: rest =>
    match rend child (pfx ++ (if rest.isEmpty then "    " else "│   ")) with
    | .error e => .error e
    | .ok sub =>
      match genDirsSpecWith rend pfx (k + 1) total rest with
      | .error e => .error e
      | .ok more =>
        .ok (((pfx ++ (if k == total - 1 then lastGlyph else midGlyph) ++ name ++ "/") :: sub) ++ more)

/-- The tree renderer as worded by the specification: same partition and
sorting of children, files emitted first and then directories, but each line
glyph chosen by the position of the line among the combined children of the
directory. -/
def generateTreeSpecFuel : Nat → FSNode → String → Config → Except String (List String)
  | 0, _, _, _ => .error "MAXDEPTH: tree recursion fuel exhausted"
  | _ + 1, .file _, _, _ => .error "ENOTDIR: not a directory"
  | _ + 1, .dir (some e) _, _, _ => .error e
  | fuel + 1, .dir none entries, pfx, config =>
    match genDirsSpecWith (fun c q => generateTreeSpecFuel fuel c q config) pfx
        (treeFileNames config entries).length
        ((treeFileNames config entries).length + (treeDirPairs config entries).length)
        (treeDirPairs config entries) with
    | .error e => .error e
    | .ok dl =>
      .ok (specFileLines pfx 0
        ((treeFileNames config entries).length + (treeDirPairs config entries).length)
        (treeFileNames config entries) ++ dl)

/-- Top-level renderer of the specification wording (see
`generateTreeSpecFuel`). -/
def generateTreeSpec (node : FSNode) (pfx : String) (config : Config) :
    Except String (List String) :=
  generateTreeSpecFuel (nodeSize node) node pfx config

/-- Look up a directory entry by name (first match, as filesystem resolution
of a unique name). -/
def lookupEntry (entries : List (String × FSNode)) (s : String) : Option FSNode :=
  match entries with
  | [] => none
  | (n, c) :: rest => if n = s then some c else lookupEntry rest s

/-- Resolve a segment path from a node. -/
def resolve (node : FSNode) (segs : List String) : Option FSNode :=
  match segs with
  | [] => some node
  | s :: rest =>
    match node with
    | .file _ => none
    | .dir _ entries =>
      match lookupEntry entries s with
      | some c => resolve c rest
      | none => none

/-- Model of `fs.readFileSync(p, "utf8")` for a path relative to the scan
root: resolve the path and return the file node read result. -/
def readFileAt (root : FSNode) (p : String) : Except String String :=
  match resolve root (splitPath p) with
  | some (.file r) => r
  | some (.dir _ _) => .error ("EISDIR: illegal operation on a directory, read " ++ p)
  | none => .error ("ENOENT: no such file or directory, open " ++ p)

/-- The fixed separator line under each `FILE:` header. -/
def sepLine : String := "----------------------------------------"

/-- The fixed report banner lines. -/
def headerLines : List String :=
  ["====================================", "PROJECT STRUCTURE AND CONTENTS",
   "====================================", ""]

/-- The five output entries pushed for one collected file (the `files.forEach`
body of `generateStructure`): header, separator, content line
(text content, binary placeholder, or read-error line), and two blanks. -/
def fileBlock (root : FSNode) (config : Config) (p : String) : List String :=
  ["FILE: " ++ p, sepLine] ++
    (if getFileType p config = "text" then
      match readFileAt root p with
      | .ok c => [c]
      | .error m => ["[ERROR READING FILE: " ++ m ++ "]"]
    else ["[BINARY FILE - CONTENT NOT DISPLAYED]"]) ++ ["", ""]

/-- The filtered, sorted file list of `generateStructure`: all collected
paths, minus paths containing an excluded directory name as substring, minus
paths containing an excluded file name as substring, minus the path equal to
the tool source file name, sorted alphabetically. -/
def contentFiles (root : FSNode) (config : Config) : Except String (List String) :=
  match getAllFiles root "." [] config with
  | .error e => .error e
  | .ok fl =>
    .ok (sortNames (((fl.filter
      (fun p => !(config.excludeDirs.any (fun d => strIncludes p d)))).filter
      (fun p => !(config.excludeFiles.any (fun ex => strIncludes p ex)))).filter
      (fun p => p != selfName)))

/-- Transcription of `generateStructure` at line granularity: the list of
entries pushed to `output` (joined with newlines by `generateStructure`).
The tree section is produced before the file list is collected, so a tree
error propagates first. -/
def generateStructureC (root : FSNode) (config : Config) : Except String (List String) :=
  match generateTree root "" config with
  | .error e => .error e
  | .ok treeLines =>
    match contentFiles root config with
    | .error e => .error e
    | .ok fl =>
      .ok (headerLines ++ ["PROJECT STRUCTURE:", "=================="] ++ treeLines ++
        [""] ++ ["FILE CONTENTS:", "==============", ""] ++
        fl.flatMap (fileBlock root config))

/-- Transcription of `generateStructure`: merge the options over the defaults
and join the output entries with newlines. -/
def generateStructure (root : FSNode) (options : Options) : Except String String :=
  match generateStructureC root (mergeConfig options) with
  | .error e => .error e
  | .ok out => .ok (String.intercalate "\n" out)

/-- The single report write performed at the end of a successful run. -/
structure WriteOp where
  path : String
  content : String

/-- Transcription of `executeGenerator`: build the report over the merged
configuration and write it to the configured output file; a thrown error
aborts before any write. -/
def executeGenerator (root : FSNode) (options : Options) : Except String WriteOp :=
  match generateStructure root (configToOptions (mergeConfig options)) with
  | .error e => .error e
  | .ok s => .ok ⟨(mergeConfig options).outputFile, s⟩

mutual
/-- Remove, at every level of the tree, the entries selected by `kill`;
surviving directory entries are erased recursively. Used to state that
excluded entries contribute nothing to an output. -/
def eraseP (kill : String → FSNode → Bool) : FSNode → FSNode
  | .file r => .file r
  | .dir le entries => .dir le (erasePEntries kill entries)

/-- Entry-list part of `eraseP`. -/
def erasePEntries (kill : String → FSNode → Bool) :
    List (String × FSNode) → List (String × FSNode)
  | [] => []
  | (n, c) :: rest =>
    if kill n c then erasePEntries kill rest
    else (n, eraseP kill c) :: erasePEntries kill rest
end

/-- Remove every directory named `d` (with its whole subtree) from a
filesystem tree. -/
def eraseDir (d : String) : FSNode → FSNode :=
  eraseP (fun n c => c.isDirB && n == d)

/-- Remove every file named like the tool source file from a filesystem
tree. -/
def eraseSelf : FSNode → FSNode :=
  eraseP (fun n c => c.isFileB && n == selfName)

/-! ### Concrete scenario filesystems and expected outputs -/

/-- Scenario A of the specification: a root with `a.txt` (content "hi") and
an empty directory `sub/`. -/
def fsA : FSNode :=
  .dir none [("a.txt", .file (.ok "hi")), ("sub", .dir none [])]

/-- The full report entry list the code produces for `fsA` under the default
configuration. -/
def fsAOut : List String :=
  ["====================================", "PROJECT STRUCTURE AND CONTENTS",
   "====================================", "",
   "PROJECT STRUCTURE:", "==================", "├── a.txt", "└── sub/", "",
   "FILE CONTENTS:", "==============", "",
   "FILE: a.txt", "----------------------------------------", "hi", "", ""]

/-- A root containing the configured default output file. -/
def fsOut : FSNode := .dir none [("project-structure.txt", .file (.ok "x"))]

/-- The full report entry list the code produces for `fsOut` under the default
configuration. -/
def fsOutOut : List String :=
  ["====================================", "PROJECT STRUCTURE AND CONTENTS",
   "====================================", "",
   "PROJECT STRUCTURE:", "==================", "└── project-structure.txt", "",
   "FILE CONTENTS:", "==============", "",
   "FILE: project-structure.txt", "----------------------------------------", "x", "", ""]

/-- A root containing only a `.gitignore` file. -/
def fsGit : FSNode := .dir none [(".gitignore", .file (.ok "dist/"))]

/-- The full report entry list the code produces for `fsGit` under the default
configuration: the file is a tree line but no content block exists. -/
def fsGitOut : List String :=
  ["====================================", "PROJECT STRUCTURE AND CONTENTS",
   "====================================", "",
   "PROJECT STRUCTURE:", "==================", "└── .gitignore", "",
   "FILE CONTENTS:", "==============", ""]

/-- A root whose subdirectory `sub` holds a copy of the tool source file
name. -/
def fsDeep : FSNode :=
  .dir none [("sub", .dir none [("project-structure.js", .file (.ok "x"))])]

/-- The full report entry list the code produces for `fsDeep` under the
default configuration: the copy is absent from the tree but present in the
contents section. -/
def fsDeepOut : List String :=
  ["====================================", "PROJECT STRUCTURE AND CONTENTS",
   "====================================", "",
   "PROJECT STRUCTURE:", "==================", "└── sub/", "",
   "FILE CONTENTS:", "==============", "",
   "FILE: sub/project-structure.js", "----------------------------------------", "x", "", ""]

/-- A root with one file whose read fails (deleted between listing and
reading) followed by one readable file. -/
def fsErr : FSNode :=
  .dir none [("bad.txt", .file (.error "gone")), ("good.txt", .file (.ok "ok"))]

/-- A root whose own listing fails. -/
def fsFail : FSNode := .dir (some "EACCES: permission denied, scandir") []

/-- A root with an excluded dependency directory next to a normal file. -/
def fsB : FSNode :=
  .dir none [("a.txt", .file (.ok "hi")),
    ("node_modules", .dir none [("x.js", .file (.ok "m"))])]

/-- A root with a single binary (non-text-extension) file. -/
def fsPng : FSNode := .dir none [("logo.png", .file (.ok "BYTES"))]

/-! ### Size and membership lemmas -/

theorem nodeSize_pos (node : FSNode) : 1 ≤ nodeSize node := by
  cases node <;> simp [nodeSize]

theorem mem_insertPair {x y : String × FSNode} {l : List (String × FSNode)} :
    y ∈ insertPair x l ↔ y = x ∨ y ∈ l := by
  induction l with
  | nil => simp [insertPair]
  | cons z zs ih =>
    simp only [insertPair]
    split
    · simp
    · simp [ih]; tauto

theorem mem_sortPairs {y : String × FSNode} {l : List (String × FSNode)} :
    y ∈ sortPairs l ↔ y ∈ l := by
  induction l with
  | nil => simp [sortPairs]
  | cons z zs ih =>
    simp only [sortPairs, List.foldr] at ih ⊢
    rw [mem_insertPair, ih]
    simp

theorem nodeSize_lt_of_mem {n : String} {c : FSNode} {entries : List (String × FSNode)}
    (h : (n, c) ∈ entries) : nodeSize c < entriesSize entries := by
  induction entries with
  | nil => simp at h
  | cons e rest ih =>
    obtain ⟨m, d⟩ := e
    rcases List.mem_cons.mp h with h1 | h2
    · obtain ⟨rfl, rfl⟩ := Prod.mk.injEq .. ▸ h1
      simp only [entriesSize]
      omega
    · have := ih h2
      simp only [entriesSize]
      omega

theorem nodeSize_lt_of_mem_treeDirPairs {config : Config} {entries : List (String × FSNode)}
    {n : String} {c : FSNode} (h : (n, c) ∈ treeDirPairs config entries) :
    nodeSize c < entriesSize entries := by
  have h1 : (n, c) ∈ entries :=
    List.mem_of_mem_filter (mem_sortPairs.mp h)
  exact nodeSize_lt_of_mem h1

/-! ### Fuel congruence: any fuel of at least `nodeSize` gives the same
render -/

theorem genDirsWith_congr (r₁ r₂ : FSNode → String → Except String (List String))
    {pfx : String} {ds : List (String × FSNode)}
    (h : ∀ p ∈ ds, ∀ q, r₁ p.2 q = r₂ p.2 q) :
    genDirsWith r₁ pfx ds = genDirsWith r₂ pfx ds := by
  induction ds with
  | nil => rfl
  | cons hd tl ih =>
    obtain ⟨n, c⟩ := hd
    simp only [genDirsWith]
    rw [h (n, c) (List.mem_cons_self _ _)]
    rw [ih (fun p hp q => h p (List.mem_cons_of_mem _ hp) q)]

theorem generateTreeFuel_congr (f : Nat) : ∀ (g : Nat) (node : FSNode),
    nodeSize node ≤ f → nodeSize node ≤ g → ∀ (pfx : String) (config : Config),
    generateTreeFuel f node pfx config = generateTreeFuel g node pfx config := by
  induction f using Nat.strong_induction_on with
  | _ f ih =>
  intro g node hf hg pfx config
  have h1 := nodeSize_pos node
  cases f with
  | zero => omega
  | succ f' =>
    cases g with
    | zero => omega
    | succ g' =>
      cases node with
      | file r => rfl
      | dir le entries =>
        cases le with
        | some e => rfl
        | none =>
          simp only [generateTreeFuel]
          rw [genDirsWith_congr (fun c q => generateTreeFuel f' c q config)
            (fun c q => generateTreeFuel g' c q config) ?hcg]
          case hcg =>
            intro p hp q
            obtain ⟨n, c⟩ := p
            have hc : nodeSize c < entriesSize entries := nodeSize_lt_of_mem_treeDirPairs hp
            have hsz : nodeSize (FSNode.dir none entries) = 1 + entriesSize entries := rfl
            exact ih f' (by omega) g' c (by omega) (by omega) q config

/-! ### The specification wording of the renderer agrees with the code -/

theorem isEmpty_eq_decide_length {α : Type} (l : List α) :
    l.isEmpty = decide (l.length = 0) := by
  cases l <;> simp

theorem specFileLines_eq (pfx : String) : ∀ (names : List String) (k total dsLen : Nat)
    (dirsEmpty : Bool), total = k + names.length + dsLen →
    dirsEmpty = decide (dsLen = 0) →
    specFileLines pfx k total names = treeFileLines pfx dirsEmpty names := by
  intro names
  induction names with
  | nil => intros; rfl
  | cons n rest ih =>
    intro k total dsLen dirsEmpty htot hde
    simp only [List.length_cons] at htot
    simp only [specFileLines, treeFileLines]
    have hglyph : (k == total - 1) = (rest.isEmpty && dirsEmpty) := by
      subst hde
      cases rest with
      | nil =>
        simp only [List.isEmpty_nil, List.length_nil, Bool.true_and] at htot ⊢
        cases dsLen with
        | zero => simp; omega
        | succ m => simp; omega
      | cons a as =>
        simp only [List.isEmpty_cons, List.length_cons, Bool.false_and] at htot ⊢
        simp
        omega
    rw [hglyph, ih (k + 1) total dsLen dirsEmpty (by omega) hde]

theorem genDirsSpecWith_congr (r₁ r₂ : FSNode → String → Except String (List String))
    {pfx : String} {k total : Nat} {ds : List (String × FSNode)}
    (h : ∀ p ∈ ds, ∀ q, r₁ p.2 q = r₂ p.2 q) :
    genDirsSpecWith r₁ pfx k total ds = genDirsSpecWith r₂ pfx k total ds := by
  induction ds generalizing k with
  | nil => rfl
  | cons hd tl ih =>
    obtain ⟨n, c⟩ := hd
    simp only [genDirsSpecWith]
    rw [h (n, c) (List.mem_cons_self _ _)]
    rw [ih (fun p hp q => h p (List.mem_cons_of_mem _ hp) q)]

theorem genDirsSpecWith_eq (rend : FSNode → String → Except String (List String))
    (pfx : String) : ∀ (ds : List (String × FSNode)) (k total : Nat),
    total = k + ds.length →
    genDirsSpecWith rend pfx k total ds = genDirsWith rend pfx ds := by
  intro ds
  induction ds with
  | nil => intros; rfl
  | cons hd tl ih =>
    intro k total htot
    obtain ⟨n, c⟩ := hd
    simp only [List.length_cons] at htot
    simp only [genDirsSpecWith, genDirsWith]
    have hglyph : (k == total - 1) = tl.isEmpty := by
      cases tl with
      | nil => simp only [List.isEmpty_nil, List.length_nil] at htot ⊢; simp; omega
      | cons a as =>
        simp only [List.isEmpty_cons, List.length_cons] at htot ⊢
        simp
        omega
    rw [hglyph, ih (k + 1) total (by omega)]

theorem generateTreeSpecFuel_eq : ∀ (fuel : Nat) (node : FSNode) (pfx : String)
    (config : Config),
    generateTreeSpecFuel fuel node pfx config = generateTreeFuel fuel node pfx config := by
  intro fuel
  induction fuel with
  | zero => intro node pfx config; rfl
  | succ f ih =>
    intro node pfx config
    cases node with
    | file r => rfl
    | dir le entries =>
      cases le with
      | some e => rfl
      | none =>
        simp only [generateTreeSpecFuel, generateTreeFuel]
        rw [genDirsSpecWith_congr (fun c q => generateTreeSpecFuel f c q config)
          (fun c q => generateTreeFuel f c q config)
          (fun p _hp q => ih p.2 q config)]
        rw [genDirsSpecWith_eq _ _ _ _ _ rfl]
        rw [specFileLines_eq pfx (treeFileNames config entries) 0
          ((treeFileNames config entries).length + (treeDirPairs config entries).length)
          (treeDirPairs config entries).length (treeDirPairs config entries).isEmpty
          (by omega) (isEmpty_eq_decide_length _)]

/-! ### Erasure of never-rendered entries -/

theorem isDirB_eraseP (kill : String → FSNode → Bool) (c : FSNode) :
    (eraseP kill c).isDirB = c.isDirB := by
  cases c <;> rfl

theorem isFileB_eraseP (kill : String → FSNode → Bool) (c : FSNode) :
    (eraseP kill c).isFileB = c.isFileB := by
  cases c <;> rfl

theorem isFileB_eq_false_of_isDirB {c : FSNode} (h : c.isDirB = true) :
    c.isFileB = false := by
  cases c
  · simp [FSNode.isDirB] at h
  · rfl

theorem isDirB_eq_false_of_isFileB {c : FSNode} (h : c.isFileB = true) :
    c.isDirB = false := by
  cases c
  · rfl
  · simp [FSNode.isFileB] at h

theorem entriesSize_erasePEntries_le (kill : String → FSNode → Bool)
    (l : List (String × FSNode))
    (h : ∀ p ∈ l, nodeSize (eraseP kill p.2) ≤ nodeSize p.2) :
    entriesSize (erasePEntries kill l) ≤ entriesSize l := by
  induction l with
  | nil => simp [erasePEntries]
  | cons hd tl ih =>
    obtain ⟨n, c⟩ := hd
    have h1 : nodeSize (eraseP kill c) ≤ nodeSize c := h (n, c) (List.mem_cons_self _ _)
    have h2 := ih (fun p hp => h p (List.mem_cons_of_mem _ hp))
    simp only [erasePEntries]
    split
    · simp only [entriesSize]
      omega
    · simp only [entriesSize]
      omega

theorem nodeSize_eraseP_le (kill : String → FSNode → Bool) :
    ∀ (fuel : Nat) (node : FSNode), nodeSize node ≤ fuel →
    nodeSize (eraseP kill node) ≤ nodeSize node := by
  intro fuel
  induction fuel using Nat.strong_induction_on with
  | _ fuel ih =>
  intro node hsz
  cases node with
  | file r => simp [eraseP]
  | dir le entries =>
    have hlist : ∀ p ∈ entries, nodeSize (eraseP kill p.2) ≤ nodeSize p.2 := by
      intro p hp
      obtain ⟨n, c⟩ := p
      have hc : nodeSize c < entriesSize entries := nodeSize_lt_of_mem hp
      have hs : nodeSize (FSNode.dir le entries) = 1 + entriesSize entries := rfl
      exact ih (nodeSize c) (by omega) c le_rfl
    have := entriesSize_erasePEntries_le kill entries hlist
    simp only [eraseP, nodeSize]
    omega

theorem nodeSize_eraseP_le_self (kill : String → FSNode → Bool) (node : FSNode) :
    nodeSize (eraseP kill node) ≤ nodeSize node :=
  nodeSize_eraseP_le kill (nodeSize node) node le_rfl

/-- Property of an erasure predicate: every killed entry is invisible to the
tree renderer (a directory whose name is excluded, or a file whose name is
excluded or equals the tool source file name). -/
def KillInvisible (config : Config) (kill : String → FSNode → Bool) : Prop :=
  ∀ n c, kill n c = true →
    (c.isDirB = true → config.excludeDirs.contains n = true) ∧
    (c.isFileB = true → (config.excludeFiles.contains n || (n == selfName)) = true)

theorem isEmpty_map {α β : Type} (f : α → β) (l : List α) :
    (l.map f).isEmpty = l.isEmpty := by
  cases l <;> rfl

theorem filterFiles_erasePEntries (config : Config) (kill : String → FSNode → Bool)
    (hk : KillInvisible config kill) : ∀ (entries : List (String × FSNode)),
    ((erasePEntries kill entries).filter
      (fun p => p.2.isFileB && !(config.excludeFiles.contains p.1) && p.1 != selfName)).map
        Prod.fst
    = ((entries.filter
      (fun p => p.2.isFileB && !(config.excludeFiles.contains p.1) && p.1 != selfName)).map
        Prod.fst) := by
  intro entries
  induction entries with
  | nil => rfl
  | cons hd tl ih =>
    obtain ⟨n, c⟩ := hd
    simp only [erasePEntries]
    split
    case isTrue hkill =>
      have hf : (FSNode.isFileB c && !(config.excludeFiles.contains n) && (n != selfName))
          = false := by
        cases c with
        | dir le es => rfl
        | file r =>
          have h2 := (hk n (.file r) hkill).2 rfl
          cases hcont : config.excludeFiles.contains n with
          | true => simp [hcont]
          | false =>
            rw [hcont] at h2
            simp only [Bool.false_or] at h2
            simp [h2, bne]
      rw [ih]
      rw [List.filter_cons]
      simp only [hf]
      rfl
    case isFalse hkill =>
      simp only [List.filter_cons, isFileB_eraseP]
      split
      case isTrue h =>
        simp only [List.map_cons, ih]
      case isFalse h =>
        exact ih

theorem treeFileNames_erasePEntries (config : Config) (kill : String → FSNode → Bool)
    (hk : KillInvisible config kill) (entries : List (String × FSNode)) :
    treeFileNames config (erasePEntries kill entries) = treeFileNames config entries := by
  unfold treeFileNames
  rw [filterFiles_erasePEntries config kill hk]

theorem insertPair_eraseMap (kill : String → FSNode → Bool) (x : String × FSNode) :
    ∀ (l : List (String × FSNode)),
    insertPair (x.1, eraseP kill x.2) (l.map (fun p => (p.1, eraseP kill p.2)))
    = (insertPair x l).map (fun p => (p.1, eraseP kill p.2)) := by
  intro l
  induction l with
  | nil => rfl
  | cons y ys ih =>
    simp only [List.map_cons, insertPair]
    split
    · simp only [List.map_cons]
    · simp only [List.map_cons, ih]

theorem sortPairs_eraseMap (kill : String → FSNode → Bool) :
    ∀ (l : List (String × FSNode)),
    sortPairs (l.map (fun p => (p.1, eraseP kill p.2)))
    = (sortPairs l).map (fun p => (p.1, eraseP kill p.2)) := by
  intro l
  induction l with
  | nil => rfl
  | cons x xs ih =>
    simp only [List.map_cons, sortPairs, List.foldr]
    rw [show (x.1, eraseP kill x.2) = ((fun p => (p.1, eraseP kill p.2)) x) from rfl] at *
    rw [show xs.foldr insertPair [] = sortPairs xs from rfl]
    rw [show (xs.map (fun p => (p.1, eraseP kill p.2))).foldr insertPair []
      = sortPairs (xs.map (fun p => (p.1, eraseP kill p.2))) from rfl]
    rw [ih]
    exact insertPair_eraseMap kill x (sortPairs xs)

theorem filterDirs_erasePEntries (config : Config) (kill : String → FSNode → Bool)
    (hk : KillInvisible config kill) : ∀ (entries : List (String × FSNode)),
    (erasePEntries kill entries).filter
      (fun p => p.2.isDirB && !(config.excludeDirs.contains p.1))
    = (entries.filter (fun p => p.2.isDirB && !(config.excludeDirs.contains p.1))).map
        (fun p => (p.1, eraseP kill p.2)) := by
  intro entries
  induction entries with
  | nil => rfl
  | cons hd tl ih =>
    obtain ⟨n, c⟩ := hd
    simp only [erasePEntries]
    split
    case isTrue hkill =>
      have hf : (FSNode.isDirB c && !(config.excludeDirs.contains n)) = false := by
        cases c with
        | file r => rfl
        | dir le es =>
          have h2 := (hk n (.dir le es) hkill).1 rfl
          rw [h2]
          simp
      rw [ih, List.filter_cons]
      simp only [hf]
      rfl
    case isFalse hkill =>
      simp only [List.filter_cons, isDirB_eraseP]
      split
      case isTrue h =>
        simp only [List.map_cons, ih]
      case isFalse h =>
        exact ih

theorem treeDirPairs_erasePEntries (config : Config) (kill : String → FSNode → Bool)
    (hk : KillInvisible config kill) (entries : List (String × FSNode)) :
    treeDirPairs config (erasePEntries kill entries)
    = (treeDirPairs config entries).map (fun p => (p.1, eraseP kill p.2)) := by
  unfold treeDirPairs
  rw [filterDirs_erasePEntries config kill hk, sortPairs_eraseMap]

theorem genDirsWith_map_eraseP {kill : String → FSNode → Bool}
    {rend : FSNode → String → Except String (List String)} {pfx : String}
    (h : ∀ c q, rend (eraseP kill c) q = rend c q) : ∀ (ds : List (String × FSNode)),
    genDirsWith rend pfx (ds.map (fun p => (p.1, eraseP kill p.2)))
    = genDirsWith rend pfx ds := by
  intro ds
  induction ds with
  | nil => rfl
  | cons hd tl ih =>
    obtain ⟨n, c⟩ := hd
    simp only [List.map_cons, genDirsWith, isEmpty_map]
    rw [h c]
    rw [ih]

theorem generateTreeFuel_eraseP (config : Config) (kill : String → FSNode → Bool)
    (hk : KillInvisible config kill) : ∀ (fuel : Nat) (node : FSNode) (pfx : String),
    generateTreeFuel fuel (eraseP kill node) pfx config
    = generateTreeFuel fuel node pfx config := by
  intro fuel
  induction fuel with
  | zero => intros; rfl
  | succ f ih =>
    intro node pfx
    cases node with
    | file r => rfl
    | dir le entries =>
      cases le with
      | some e => rfl
      | none =>
        show generateTreeFuel (f + 1) (.dir none (erasePEntries kill entries)) pfx config = _
        simp only [generateTreeFuel]
        rw [treeDirPairs_erasePEntries config kill hk,
          treeFileNames_erasePEntries config kill hk]
        rw [genDirsWith_map_eraseP (fun c q => ih c q)]
        rw [isEmpty_map]

theorem generateTree_eraseP (config : Config) (kill : String → FSNode → Bool)
    (hk : KillInvisible config kill) (node : FSNode) (pfx : String) :
    generateTree (eraseP kill node) pfx config = generateTree node pfx config := by
  unfold generateTree
  rw [generateTreeFuel_congr (nodeSize (eraseP kill node)) (nodeSize node)
    (eraseP kill node) le_rfl (nodeSize_eraseP_le_self kill node) pfx config]
  exact generateTreeFuel_eraseP config kill hk (nodeSize node) node pfx

/-- Property of an erasure predicate: it only kills directories that the
collector never descends into. -/
def KillExcludedDir (config : Config) (kill : String → FSNode → Bool) : Prop :=
  ∀ n c, kill n c = true → c.isDirB = true ∧ config.excludeDirs.contains n = true

theorem collectEntries_erasePEntries (config : Config) (kill : String → FSNode → Bool)
    (hk : KillExcludedDir config kill) : ∀ (entries : List (String × FSNode)),
    (∀ p ∈ entries, ∀ dp, collectFiles (eraseP kill p.2) dp config = collectFiles p.2 dp config) →
    ∀ dirPath, collectEntries (erasePEntries kill entries) dirPath config
      = collectEntries entries dirPath config := by
  intro entries
  induction entries with
  | nil => intro _ _; rfl
  | cons hd tl ih =>
    intro hIH dirPath
    obtain ⟨n, c⟩ := hd
    have htl := ih (fun p hp dp => hIH p (List.mem_cons_of_mem _ hp) dp) dirPath
    simp only [erasePEntries]
    split
    case isTrue hkill =>
      obtain ⟨hdir, hcont⟩ := hk n c hkill
      cases c with
      | file r => simp [FSNode.isDirB] at hdir
      | dir le es =>
        rw [htl]
        simp only [collectEntries, hcont, if_true]
        cases hrest : collectEntries tl dirPath config with
        | error e => rfl
        | ok more => rfl
    case isFalse hkill =>
      cases c with
      | file r =>
        simp only [collectEntries, eraseP]
        rw [htl]
      | dir le es =>
        have hchild := hIH (n, .dir le es) (List.mem_cons_self _ _) (pathJoin dirPath n)
        simp only [collectEntries]
        rw [htl]
        cases hcont : config.excludeDirs.contains n with
        | true => rfl
        | false =>
          have heq : collectFiles (FSNode.dir le (erasePEntries kill es)) (pathJoin dirPath n)
                config
              = collectFiles (FSNode.dir le es) (pathJoin dirPath n) config := hchild
          simp only [eraseP]
          rw [if_neg Bool.false_ne_true, if_neg Bool.false_ne_true]
          rw [heq]

theorem collectFiles_eraseP (config : Config) (kill : String → FSNode → Bool)
    (hk : KillExcludedDir config kill) : ∀ (fuel : Nat) (node : FSNode),
    nodeSize node ≤ fuel → ∀ dirPath,
    collectFiles (eraseP kill node) dirPath config = collectFiles node dirPath config := by
  intro fuel
  induction fuel using Nat.strong_induction_on with
  | _ fuel ihf =>
  intro node hsz dirPath
  cases node with
  | file r => rfl
  | dir le entries =>
    cases le with
    | some e => rfl
    | none =>
      show collectFiles (.dir none (erasePEntries kill entries)) dirPath config = _
      simp only [collectFiles]
      apply collectEntries_erasePEntries config kill hk entries
      intro p hp dp
      obtain ⟨n, ch⟩ := p
      have hc : nodeSize ch < entriesSize entries := nodeSize_lt_of_mem hp
      have hs : nodeSize (FSNode.dir none entries) = 1 + entriesSize entries := rfl
      exact ihf (nodeSize ch) (by omega) ch le_rfl dp

theorem collectFiles_eraseP_self (config : Config) (kill : String → FSNode → Bool)
    (hk : KillExcludedDir config kill) (node : FSNode) (dirPath : String) :
    collectFiles (eraseP kill node) dirPath config = collectFiles node dirPath config :=
  collectFiles_eraseP config kill hk (nodeSize node) node le_rfl dirPath

/-! ### Path resolution is unaffected by erasing directories the path avoids -/

theorem lookupEntry_erasePEntries_dir {d s : String} (hne : s ≠ d) :
    ∀ (entries : List (String × FSNode)),
    lookupEntry (erasePEntries (fun n c => c.isDirB && n == d) entries) s
      = (lookupEntry entries s).map (eraseP (fun n c => c.isDirB && n == d)) := by
  intro entries
  induction entries with
  | nil => rfl
  | cons hd tl ih =>
    obtain ⟨n, c⟩ := hd
    simp only [erasePEntries]
    split
    case isTrue hkill =>
      have hnd : n = d := by
        have h2 := (Bool.and_eq_true _ _).mp hkill
        exact beq_iff_eq.mp h2.2
      rw [ih]
      simp only [lookupEntry]
      rw [if_neg (fun hh : n = s => hne (hh ▸ hnd))]
    case isFalse hkill =>
      simp only [lookupEntry]
      by_cases hs : n = s
      · rw [if_pos hs, if_pos hs]
        rfl
      · rw [if_neg hs, if_neg hs]
        exact ih

theorem resolve_eraseDir (d : String) : ∀ (segs : List String) (node : FSNode),
    (∀ s ∈ segs, s ≠ d) →
    resolve (eraseDir d node) segs = (resolve node segs).map (eraseDir d) := by
  intro segs
  induction segs with
  | nil => intro node _; rfl
  | cons s rest ih =>
    intro node hs
    cases node with
    | file r => rfl
    | dir le entries =>
      show resolve (.dir le (erasePEntries (fun n c => c.isDirB && n == d) entries))
        (s :: rest) = _
      simp only [resolve]
      rw [lookupEntry_erasePEntries_dir (hs s (List.mem_cons_self _ _))]
      cases hl : lookupEntry entries s with
      | none => rfl
      | some child =>
        simp only [Option.map_some]
        exact ih child (fun x hx => hs x (List.mem_cons_of_mem _ hx))

theorem readFileAt_eraseDir (d : String) (root : FSNode) (p : String)
    (h : ∀ s ∈ splitPath p, s ≠ d) :
    readFileAt (eraseDir d root) p = readFileAt root p := by
  unfold readFileAt
  rw [resolve_eraseDir d (splitPath p) root h]
  cases hres : resolve root (splitPath p) with
  | none => rfl
  | some x =>
    cases x with
    | file r => rfl
    | dir le es => rfl

/-! ### Every path segment is a substring of the path -/

theorem splitOnChar_ne_nil (c : Char) : ∀ (l : List Char), splitOnChar c l ≠ [] := by
  intro l
  cases l with
  | nil => simp [splitOnChar]
  | cons x xs =>
    simp only [splitOnChar]
    split
    · simp
    · split <;> simp

theorem splitOnChar_head_starts (c : Char) : ∀ (l : List Char),
    (splitOnChar c l).headD [] <+: l := by
  intro l
  induction l with
  | nil => exact List.nil_prefix
  | cons x xs ih =>
    simp only [splitOnChar]
    split
    · exact List.nil_prefix
    · cases hr : splitOnChar c xs with
      | nil => exact absurd hr (splitOnChar_ne_nil c xs)
      | cons hh tt =>
        have ih2 : hh <+: xs := by
          rw [hr] at ih
          simpa using ih
        obtain ⟨u, hu⟩ := ih2
        exact ⟨u, by
          show (x :: hh) ++ u = x :: xs
          rw [List.cons_append, hu]⟩

theorem mem_splitOnChar_within (c : Char) : ∀ (l seg : List Char),
    seg ∈ splitOnChar c l → seg <:+: l := by
  intro l
  induction l with
  | nil =>
    intro seg h
    simp [splitOnChar] at h
    subst h
    exact List.nil_infix
  | cons x xs ih =>
    intro seg h
    simp only [splitOnChar] at h
    split at h
    · rcases List.mem_cons.mp h with rfl | h2
      · exact List.nil_infix
      · exact List.infix_cons (ih seg h2)
    · cases hr : splitOnChar c xs with
      | nil => exact absurd hr (splitOnChar_ne_nil c xs)
      | cons hh tt =>
        rw [hr] at h
        rcases List.mem_cons.mp h with rfl | h2
        · have hp := splitOnChar_head_starts c xs
          rw [hr] at hp
          simp only [List.headD_cons] at hp
          obtain ⟨u, hu⟩ := hp
          exact ⟨[], u, by simp [← hu]⟩
        · exact List.infix_cons (ih seg (hr ▸ List.mem_cons_of_mem hh h2))

theorem strIncludes_of_mem_splitPath {p s : String} (h : s ∈ splitPath p) :
    strIncludes p s = true := by
  unfold splitPath at h
  obtain ⟨seg, hseg, rfl⟩ := List.mem_map.mp h
  exact decide_eq_true (mem_splitOnChar_within (Char.ofNat 47) p.data seg hseg)

/-! ### Membership facts about the assembled file list -/

theorem contains_eq_true_of_mem {l : List String} {a : String} (h : a ∈ l) :
    l.contains a = true := by
  simpa using h

theorem mem_insertName {x y : String} {l : List String} :
    y ∈ insertName x l ↔ y = x ∨ y ∈ l := by
  induction l with
  | nil => simp [insertName]
  | cons z zs ih =>
    simp only [insertName]
    split
    · simp
    · simp [ih]
      tauto

theorem mem_sortNames {y : String} {l : List String} : y ∈ sortNames l ↔ y ∈ l := by
  induction l with
  | nil => simp [sortNames]
  | cons z zs ih =>
    simp only [sortNames, List.foldr] at ih ⊢
    rw [mem_insertName, ih]
    simp

theorem flatMapCongr {α β : Type} {f g : α → List β} : ∀ (l : List α),
    (∀ x ∈ l, f x = g x) → l.flatMap f = l.flatMap g := by
  intro l
  induction l with
  | nil => intro _; rfl
  | cons x xs ih =>
    intro h
    simp only [List.flatMap_cons]
    rw [h x (List.mem_cons_self _ _), ih (fun y hy => h y (List.mem_cons_of_mem _ hy))]

theorem mem_contentFiles_no_excludeDir {root : FSNode} {config : Config} {fl : List String}
    (hfl : contentFiles root config = .ok fl) {p : String} (hp : p ∈ fl) :
    ∀ d ∈ config.excludeDirs, strIncludes p d = false := by
  unfold contentFiles at hfl
  cases hraw : getAllFiles root "." [] config with
  | error e => rw [hraw] at hfl; cases hfl
  | ok raw =>
    rw [hraw] at hfl
    have hfl2 : fl = sortNames (((raw.filter
        (fun p => !(config.excludeDirs.any (fun d => strIncludes p d)))).filter
        (fun p => !(config.excludeFiles.any (fun ex => strIncludes p ex)))).filter
        (fun p => p != selfName)) := by
      cases hfl
      rfl
    rw [hfl2] at hp
    have h1 := mem_sortNames.mp hp
    have h2 := List.mem_of_mem_filter h1
    have h3 := List.mem_of_mem_filter h2
    have h4 := List.of_mem_filter h3
    intro d hd
    have h5 : (config.excludeDirs.any (fun d => strIncludes p d)) = false := by
      cases hc : config.excludeDirs.any (fun d => strIncludes p d) with
      | false => rfl
      | true => rw [hc] at h4; cases h4
    simpa using List.any_eq_false.mp h5 d hd

theorem mem_contentFiles_ne_selfName {root : FSNode} {config : Config} {fl : List String}
    (hfl : contentFiles root config = .ok fl) {p : String} (hp : p ∈ fl) :
    p ≠ selfName := by
  unfold contentFiles at hfl
  cases hraw : getAllFiles root "." [] config with
  | error e => rw [hraw] at hfl; cases hfl
  | ok raw =>
    rw [hraw] at hfl
    have hfl2 : fl = sortNames (((raw.filter
        (fun p => !(config.excludeDirs.any (fun d => strIncludes p d)))).filter
        (fun p => !(config.excludeFiles.any (fun ex => strIncludes p ex)))).filter
        (fun p => p != selfName)) := by
      cases hfl
      rfl
    rw [hfl2] at hp
    have h1 := mem_sortNames.mp hp
    have h4 := List.of_mem_filter h1
    simpa using h4

/-! ### The report is unchanged when an excluded directory is erased -/

theorem contentFiles_eraseDir (root : FSNode) (config : Config) (d : String)
    (hd : d ∈ config.excludeDirs) :
    contentFiles (eraseDir d root) config = contentFiles root config := by
  have hk : KillExcludedDir config (fun n c => c.isDirB && n == d) := by
    intro n c hkc
    have h2 := (Bool.and_eq_true _ _).mp hkc
    refine ⟨h2.1, ?_⟩
    have : n = d := beq_iff_eq.mp h2.2
    rw [this]
    exact contains_eq_true_of_mem hd
  unfold contentFiles getAllFiles
  rw [show eraseDir d root = eraseP (fun n c => c.isDirB && n == d) root from rfl]
  rw [collectFiles_eraseP_self config _ hk root "."]

theorem fileBlock_eraseDir {root : FSNode} {config : Config} {d : String}
    (hd : d ∈ config.excludeDirs) {p : String}
    (hno : strIncludes p d = false) :
    fileBlock (eraseDir d root) config p = fileBlock root config p := by
  unfold fileBlock
  rw [readFileAt_eraseDir d root p]
  intro s hs hsd
  subst hsd
  rw [strIncludes_of_mem_splitPath hs] at hno
  cases hno

theorem generateStructureC_eraseDir (root : FSNode) (config : Config) (d : String)
    (hd : d ∈ config.excludeDirs) :
    generateStructureC (eraseDir d root) config = generateStructureC root config := by
  have hkI : KillInvisible config (fun n c => c.isDirB && n == d) := by
    intro n c hkc
    have h2 := (Bool.and_eq_true _ _).mp hkc
    constructor
    · intro _
      have : n = d := beq_iff_eq.mp h2.2
      rw [this]
      exact contains_eq_true_of_mem hd
    · intro habs
      rw [isFileB_eq_false_of_isDirB h2.1] at habs
      cases habs
  have htree : generateTree (eraseDir d root) "" config = generateTree root "" config :=
    generateTree_eraseP config _ hkI root ""
  have hcf : contentFiles (eraseDir d root) config = contentFiles root config :=
    contentFiles_eraseDir root config d hd
  unfold generateStructureC
  rw [htree, hcf]
  cases ht : generateTree root "" config with
  | error e => rfl
  | ok t =>
    cases hcfl : contentFiles root config with
    | error e => rfl
    | ok fl =>
      have hblocks : fl.flatMap (fileBlock (eraseDir d root) config)
          = fl.flatMap (fileBlock root config) := by
        apply flatMapCongr
        intro p hp
        exact fileBlock_eraseDir hd
          (mem_contentFiles_no_excludeDir hcfl hp d hd)
      show Except.ok (headerLines ++ ["PROJECT STRUCTURE:", "=================="] ++ t ++ [""] ++
          ["FILE CONTENTS:", "==============", ""] ++ fl.flatMap (fileBlock (eraseDir d root) config))
        = Except.ok (headerLines ++ ["PROJECT STRUCTURE:", "=================="] ++ t ++ [""] ++
          ["FILE CONTENTS:", "==============", ""] ++ fl.flatMap (fileBlock root config))
      rw [hblocks]

/-! ### Assembly shape -/

theorem generateStructureC_eq_of_ok {root : FSNode} {config : Config} {t fl : List String}
    (ht : generateTree root "" config = .ok t)
    (hfl : contentFiles root config = .ok fl) :
    generateStructureC root config
      = .ok (headerLines ++ ["PROJECT STRUCTURE:", "=================="] ++ t ++ [""] ++
        ["FILE CONTENTS:", "==============", ""] ++ fl.flatMap (fileBlock root config)) := by
  unfold generateStructureC
  rw [ht, hfl]

theorem fileBlock_infix_flatMap (root : FSNode) (config : Config) {fl : List String}
    {p : String} (hp : p ∈ fl) :
    fileBlock root config p <:+: fl.flatMap (fileBlock root config) := by
  obtain ⟨s, t, rfl⟩ := List.append_of_mem hp
  rw [List.flatMap_append, List.flatMap_cons]
  exact ⟨s.flatMap (fileBlock root config), t.flatMap (fileBlock root config), by simp⟩

theorem fileBlock_text_ok {root : FSNode} {config : Config} {p c : String}
    (htext : getFileType p config = "text") (hread : readFileAt root p = .ok c) :
    fileBlock root config p = ["FILE: " ++ p, sepLine, c, "", ""] := by
  unfold fileBlock
  rw [if_pos htext, hread]
  rfl

theorem fileBlock_text_error {root : FSNode} {config : Config} {p m : String}
    (htext : getFileType p config = "text") (hread : readFileAt root p = .error m) :
    fileBlock root config p
      = ["FILE: " ++ p, sepLine, "[ERROR READING FILE: " ++ m ++ "]", "", ""] := by
  unfold fileBlock
  rw [if_pos htext, hread]
  rfl

theorem fileBlock_binary {root : FSNode} {config : Config} {p : String}
    (hbin : ¬getFileType p config = "text") :
    fileBlock root config p
      = ["FILE: " ++ p, sepLine, "[BINARY FILE - CONTENT NOT DISPLAYED]", "", ""] := by
  unfold fileBlock
  rw [if_neg hbin]
  rfl

theorem getFileType_text_iff (p : String) (config : Config) :
    getFileType p config = "text"
      ↔ config.textExtensions.contains (toLowerAscii (extname p)) = true := by
  unfold getFileType
  cases h : config.textExtensions.contains (toLowerAscii (extname p)) with
  | true => simp
  | false => simp

theorem getFileType_binary_iff (p : String) (config : Config) :
    getFileType p config = "binary"
      ↔ config.textExtensions.contains (toLowerAscii (extname p)) = false := by
  unfold getFileType
  cases h : config.textExtensions.contains (toLowerAscii (extname p)) with
  | true => simp
  | false => simp

theorem generateTree_eraseSelf (config : Config) (node : FSNode) (pfx : String) :
    generateTree (eraseSelf node) pfx config = generateTree node pfx config := by
  apply generateTree_eraseP
  intro n ch hkc
  have h2 := (Bool.and_eq_true _ _).mp hkc
  constructor
  · intro habs
    rw [isDirB_eq_false_of_isFileB h2.1] at habs
    cases habs
  · intro _
    rw [h2.2, Bool.or_true]

theorem selfName_not_mem_treeFileNames (config : Config)
    (entries : List (String × FSNode)) : selfName ∉ treeFileNames config entries := by
  intro hmem
  unfold treeFileNames at hmem
  have h1 := mem_sortNames.mp hmem
  obtain ⟨q, hq, hq1⟩ := List.mem_map.mp h1
  have h2 := List.of_mem_filter hq
  rw [hq1] at h2
  simp at h2

theorem killInvisible_dir (config : Config) {d : String} (hd : d ∈ config.excludeDirs) :
    KillInvisible config (fun n c => c.isDirB && n == d) := by
  intro n c hkc
  have h2 := (Bool.and_eq_true _ _).mp hkc
  constructor
  · intro _
    have hnd : n = d := beq_iff_eq.mp h2.2
    rw [hnd]
    exact contains_eq_true_of_mem hd
  · intro habs
    rw [isFileB_eq_false_of_isDirB h2.1] at habs
    cases habs

theorem generateTree_eraseDir (config : Config) {d : String} (hd : d ∈ config.excludeDirs)
    (node : FSNode) (pfx : String) :
    generateTree (eraseDir d node) pfx config = generateTree node pfx config :=
  generateTree_eraseP config _ (killInvisible_dir config hd) node pfx

/-! ## Claims -/

/-- C1, counterexample: with the default configuration, a filesystem holding
the configured output file `project-structure.txt` produces a report in which
that file appears both as a tree line and as a `FILE:` block — the code only
excludes the source file name `project-structure.js`, not the output file. -/
theorem c1_counterexample :
    DEFAULT_CONFIG.outputFile = "project-structure.txt" ∧
    generateTree fsOut "" DEFAULT_CONFIG = .ok ["└── project-structure.txt"] ∧
    contentFiles fsOut DEFAULT_CONFIG = .ok ["project-structure.txt"] ∧
    generateStructureC fsOut DEFAULT_CONFIG = .ok fsOutOut ∧
    "FILE: project-structure.txt" ∈ fsOutOut :=
  ⟨rfl, rfl, rfl, rfl, by decide⟩

/-- C1, amended: what the tool excludes from its own report is its source
file name `project-structure.js` (the value of `path.basename(__filename)`),
not the configured output file: no directory listing ever contributes a tree
file line named like the source file, and the assembled contents list never
contains the path equal to that name. -/
theorem c1_amended_self_name_excluded :
    (∀ (config : Config) (entries : List (String × FSNode)),
      selfName ∉ treeFileNames config entries) ∧
    (∀ (root : FSNode) (config : Config) (fl : List String),
      contentFiles root config = .ok fl → selfName ∉ fl) :=
  ⟨fun config entries => selfName_not_mem_treeFileNames config entries,
   fun _root _config _fl hfl hmem => mem_contentFiles_ne_selfName hfl hmem rfl⟩

/-- C1, witness: the amended claim applied to scenario A. -/
theorem c1_witness :
    contentFiles fsA DEFAULT_CONFIG = .ok ["a.txt"] ∧ selfName ∉ (["a.txt"] : List String) :=
  ⟨rfl, c1_amended_self_name_excluded.2 fsA DEFAULT_CONFIG ["a.txt"] rfl⟩

/-- C2: the tree renderer emits all eligible files first and then all
eligible directories, each sorted alphabetically and directories suffixed
with a slash; a line gets the closing glyph exactly when it is the last
emitted line among the combined children, and each directory subtree is
spliced right after its own line with the prefix extended by four spaces for
the last directory and by a bar plus three spaces otherwise. Stated as: the
renderer written with the combined-position glyph rule of the specification
(`generateTreeSpec`) computes exactly the code renderer (`generateTree`). -/
theorem c2_tree_render_glyphs_and_order (node : FSNode) (pfx : String) (config : Config) :
    generateTreeSpec node pfx config = generateTree node pfx config :=
  generateTreeSpecFuel_eq (nodeSize node) node pfx config

/-- C3: erasing every directory named `d` (with its whole subtree) from the
filesystem leaves both the rendered tree and the whole report unchanged
whenever `d` is in `excludeDirs`: nothing below such a directory is rendered
or listed. -/
theorem c3_excluded_dir_subtree_removed (root : FSNode) (config : Config) (d : String)
    (hd : d ∈ config.excludeDirs) :
    (∀ pfx, generateTree (eraseDir d root) pfx config = generateTree root pfx config) ∧
    generateStructureC (eraseDir d root) config = generateStructureC root config :=
  ⟨fun pfx => generateTree_eraseDir config hd root pfx,
   generateStructureC_eraseDir root config d hd⟩

/-- C3, witness: the claim applied to a root holding `node_modules`. -/
theorem c3_witness :
    (generateTree (eraseDir "node_modules" fsB) "" DEFAULT_CONFIG
      = generateTree fsB "" DEFAULT_CONFIG) ∧
    generateStructureC (eraseDir "node_modules" fsB) DEFAULT_CONFIG
      = generateStructureC fsB DEFAULT_CONFIG :=
  ⟨(c3_excluded_dir_subtree_removed fsB DEFAULT_CONFIG "node_modules" (by decide)).1 "",
   (c3_excluded_dir_subtree_removed fsB DEFAULT_CONFIG "node_modules" (by decide)).2⟩

/-- C4: a file is classified by its lowercased extension alone against the
configured `textExtensions` (first conjunct); when the lowercased extension
is not in the set — in particular when no extension is present — the file is
classified binary and its whole content block is exactly the placeholder
line, never its bytes. -/
theorem c4_binary_classification (root : FSNode) (config : Config) (p : String)
    (habsent : config.textExtensions.contains (toLowerAscii (extname p)) = false) :
    (∀ q, getFileType q config = "text"
      ↔ config.textExtensions.contains (toLowerAscii (extname q)) = true) ∧
    getFileType p config = "binary" ∧
    fileBlock root config p
      = ["FILE: " ++ p, sepLine, "[BINARY FILE - CONTENT NOT DISPLAYED]", "", ""] := by
  refine ⟨fun q => getFileType_text_iff q config,
    (getFileType_binary_iff p config).mpr habsent, ?_⟩
  apply fileBlock_binary
  intro habs
  rw [(getFileType_text_iff p config).mp habs] at habsent
  exact Bool.noConfusion habsent

/-- C4, witness: the claim applied to `logo.png`. -/
theorem c4_witness :
    DEFAULT_CONFIG.textExtensions.contains (toLowerAscii (extname "logo.png")) = false ∧
    getFileType "logo.png" DEFAULT_CONFIG = "binary" ∧
    fileBlock fsPng DEFAULT_CONFIG "logo.png"
      = ["FILE: " ++ "logo.png", sepLine, "[BINARY FILE - CONTENT NOT DISPLAYED]", "", ""] :=
  ⟨by decide,
   (c4_binary_classification fsPng DEFAULT_CONFIG "logo.png" (by decide)).2.1,
   (c4_binary_classification fsPng DEFAULT_CONFIG "logo.png" (by decide)).2.2⟩

/-- C5: a failing read of one listed text file does not abort the report:
the report is still assembled with one block per listed file in order, the
failing block carrying the error line, and so every other listed file keeps
its own block. -/
theorem c5_read_error_recovered (root : FSNode) (config : Config) (t fl : List String)
    (p m : String) (ht : generateTree root "" config = .ok t)
    (hfl : contentFiles root config = .ok fl) (hp : p ∈ fl)
    (htext : getFileType p config = "text") (hread : readFileAt root p = .error m) :
    generateStructureC root config
      = .ok (headerLines ++ ["PROJECT STRUCTURE:", "=================="] ++ t ++ [""] ++
        ["FILE CONTENTS:", "==============", ""] ++ fl.flatMap (fileBlock root config)) ∧
    fileBlock root config p
      = ["FILE: " ++ p, sepLine, "[ERROR READING FILE: " ++ m ++ "]", "", ""] ∧
    fileBlock root config p <:+: fl.flatMap (fileBlock root config) :=
  ⟨generateStructureC_eq_of_ok ht hfl, fileBlock_text_error htext hread,
   fileBlock_infix_flatMap root config hp⟩

/-- C5, witness: the claim applied to a root where `bad.txt` fails to read
and `good.txt` follows it. -/
theorem c5_witness :
    generateStructureC fsErr DEFAULT_CONFIG
      = .ok (headerLines ++ ["PROJECT STRUCTURE:", "=================="] ++
        ["├── bad.txt", "└── good.txt"] ++ [""] ++
        ["FILE CONTENTS:", "==============", ""] ++
        (["bad.txt", "good.txt"] : List String).flatMap (fileBlock fsErr DEFAULT_CONFIG)) ∧
    fileBlock fsErr DEFAULT_CONFIG "bad.txt"
      = ["FILE: " ++ "bad.txt", sepLine, "[ERROR READING FILE: " ++ "gone" ++ "]", "", ""] :=
  ⟨(c5_read_error_recovered fsErr DEFAULT_CONFIG ["├── bad.txt", "└── good.txt"]
      ["bad.txt", "good.txt"] "bad.txt" "gone" rfl rfl (by decide) rfl rfl).1,
   (c5_read_error_recovered fsErr DEFAULT_CONFIG ["├── bad.txt", "└── good.txt"]
      ["bad.txt", "good.txt"] "bad.txt" "gone" rfl rfl (by decide) rfl rfl).2.1⟩

/-- C6: a listed text file whose read succeeds is embedded exactly: the
produced report contains, consecutively, its header line, the separator, the
file content as one entry, and two blank entries, so stripping header,
separator and the two blanks recovers the exact content. -/
theorem c6_text_roundtrip (root : FSNode) (config : Config) (t fl : List String)
    (p c : String) (ht : generateTree root "" config = .ok t)
    (hfl : contentFiles root config = .ok fl) (hp : p ∈ fl)
    (htext : getFileType p config = "text") (hread : readFileAt root p = .ok c) :
    ∃ out, generateStructureC root config = .ok out ∧
      ["FILE: " ++ p, sepLine, c, "", ""] <:+: out := by
  refine ⟨_, generateStructureC_eq_of_ok ht hfl, ?_⟩
  rw [← fileBlock_text_ok htext hread]
  obtain ⟨s1, t1, hst⟩ := fileBlock_infix_flatMap root config hp
  refine ⟨(headerLines ++ ["PROJECT STRUCTURE:", "=================="] ++ t ++ [""] ++
    ["FILE CONTENTS:", "==============", ""]) ++ s1, t1, ?_⟩
  rw [← hst]
  simp

/-- C6, witness: the claim applied to scenario A and its file `a.txt`. -/
theorem c6_witness :
    ∃ out, generateStructureC fsA DEFAULT_CONFIG = .ok out ∧
      ["FILE: " ++ "a.txt", sepLine, "hi", "", ""] <:+: out :=
  c6_text_roundtrip fsA DEFAULT_CONFIG ["├── a.txt", "└── sub/"] ["a.txt"]
    "a.txt" "hi" rfl rfl (by decide) rfl rfl

/-- C7, counterexample: in scenario A the content block header the code
produces is `FILE: a.txt`, because `path.join(".", "a.txt")` normalises to
`a.txt`; the header `FILE: ./a.txt` stated by the claim appears nowhere in
the report. -/
theorem c7_counterexample :
    generateStructureC fsA DEFAULT_CONFIG = .ok fsAOut ∧
    "FILE: ./a.txt" ∉ fsAOut ∧ "FILE: a.txt" ∈ fsAOut :=
  ⟨rfl, by decide, by decide⟩

/-- C7, amended: scenario A renders the tree lines `├── a.txt` then
`└── sub/` with no further lines, and the contents section holds exactly one
block, headed `FILE: a.txt` (not `FILE: ./a.txt`), with content `hi`. -/
theorem c7_amended :
    generateTree fsA "" DEFAULT_CONFIG = .ok ["├── a.txt", "└── sub/"] ∧
    contentFiles fsA DEFAULT_CONFIG = .ok ["a.txt"] ∧
    fileBlock fsA DEFAULT_CONFIG "a.txt" = ["FILE: a.txt", sepLine, "hi", "", ""] ∧
    generateStructureC fsA DEFAULT_CONFIG = .ok fsAOut :=
  ⟨rfl, rfl, rfl, rfl⟩

/-- C8: a directory listing failure is caught nowhere: an error from the
tree renderer aborts the whole report, an error from the collector aborts it
after the tree, and an aborted report yields no output string and no write
of the output file. -/
theorem c8_listing_error_propagates (root : FSNode) (config : Config) (o : Options)
    (e : String) :
    (generateTree root "" config = .error e → generateStructureC root config = .error e) ∧
    (∀ t, generateTree root "" config = .ok t →
      getAllFiles root "." [] config = .error e →
      generateStructureC root config = .error e) ∧
    (generateStructureC root (mergeConfig o) = .error e →
      generateStructure root o = .error e ∧ executeGenerator root o = .error e) := by
  refine ⟨?_, ?_, ?_⟩
  · intro h
    unfold generateStructureC
    rw [h]
  · intro t ht hga
    unfold generateStructureC
    rw [ht]
    unfold contentFiles
    rw [hga]
  · intro h
    constructor
    · unfold generateStructure
      rw [h]
    · unfold executeGenerator generateStructure
      rw [show mergeConfig (configToOptions (mergeConfig o)) = mergeConfig o from rfl, h]

/-- C8, witness: the claim applied to a root whose listing throws. -/
theorem c8_witness :
    generateStructureC fsFail DEFAULT_CONFIG = .error "EACCES: permission denied, scandir" ∧
    executeGenerator fsFail {} = .error "EACCES: permission denied, scandir" :=
  ⟨(c8_listing_error_propagates fsFail DEFAULT_CONFIG {}
      "EACCES: permission denied, scandir").1 rfl,
   ((c8_listing_error_propagates fsFail DEFAULT_CONFIG {}
      "EACCES: permission denied, scandir").2.2 rfl).2⟩

/-- C9: with the default configuration, a `.gitignore` file at the root is a
line of the rendered tree (tree filtering checks `excludeFiles` by exact
name, and `.gitignore` is not in it) yet has no content block, because
contents filtering drops any path containing an excluded directory name as a
substring and `.gitignore` contains `.git`. -/
theorem c9_gitignore_tree_only :
    generateStructureC fsGit DEFAULT_CONFIG = .ok fsGitOut ∧
    "└── .gitignore" ∈ fsGitOut ∧
    "FILE: .gitignore" ∉ fsGitOut ∧
    contentFiles fsGit DEFAULT_CONFIG = .ok [] ∧
    strIncludes ".gitignore" ".git" = true ∧
    DEFAULT_CONFIG.excludeFiles.contains ".gitignore" = false :=
  ⟨rfl, by decide, by decide, rfl, rfl, by decide⟩

/-- C10: self-exclusion is asymmetric: erasing files named like the tool
source file anywhere in the tree never changes the rendered tree (they are
filtered in every directory), while the contents list only ever omits the
path exactly equal to that name (the scan-root copy); a copy in a
subdirectory is absent from the tree yet present, with a block, in the
contents section. -/
theorem c10_self_exclusion_asymmetry :
    (∀ (config : Config) (node : FSNode) (pfx : String),
      generateTree (eraseSelf node) pfx config = generateTree node pfx config) ∧
    (∀ (root : FSNode) (config : Config) (fl : List String),
      contentFiles root config = .ok fl → selfName ∉ fl) ∧
    generateTree fsDeep "" DEFAULT_CONFIG = .ok ["└── sub/"] ∧
    contentFiles fsDeep DEFAULT_CONFIG = .ok ["sub/project-structure.js"] ∧
    generateStructureC fsDeep DEFAULT_CONFIG = .ok fsDeepOut ∧
    "FILE: sub/project-structure.js" ∈ fsDeepOut :=
  ⟨fun config node pfx => generateTree_eraseSelf config node pfx,
   fun _root _config _fl hfl hmem => mem_contentFiles_ne_selfName hfl hmem rfl,
   rfl, rfl, rfl, by decide⟩

/-- C10, witness: the contents omission applied to the concrete deep-copy
filesystem. -/
theorem c10_witness :
    contentFiles fsDeep DEFAULT_CONFIG = .ok ["sub/project-structure.js"] ∧
    selfName ∉ (["sub/project-structure.js"] : List String) :=
  ⟨rfl, c10_self_exclusion_asymmetry.2.1 fsDeep DEFAULT_CONFIG
    ["sub/project-structure.js"] rfl⟩

end ProjectStructure
